import Mathlib

/-!
# Verification of the SourcePawn preprocessor core

A shallow embedding, in Lean, of the preprocessor of the sourcepawn-lsp
repository: the macro data model, the macro expander with argument capture
(macros.rs), and the directive processor and main driver (preprocessor.rs).
Rust Vec values are modelled as Lean lists in index order, so the top of a
Vec used as a stack is the last element of the list.  The external lexer is
modelled as a list of tokens, each tagged with the value the side-band
in_preprocessor flag has while that token is the next to be yielded.
Fallible Rust code is modelled with Except; an out-of-bounds Vec index or a
failed unwrap is modelled as a distinguished panicked outcome.  The iterative
loops of the source are modelled as a step function driven by fuel.
-/

set_option maxHeartbeats 1000000
set_option maxRecDepth 20000

deriving instance DecidableEq for Except

namespace SPPre

/-- Source position, mirroring the lsp_types Position used by the code
(u32 line and u32 character). -/
structure Pos where
  line : Nat
  character : Nat
deriving Repr, DecidableEq

/-- Source range, mirroring lsp_types Range; the Rust field named end is
called stop here because end is a Lean keyword. -/
structure SRange where
  start : Pos
  stop : Pos
deriving Repr, DecidableEq

/-- Signed line and column offset from the previous symbol
(the Delta of sourcepawn_lexer). -/
structure Delta where
  dline : Int
  col : Int
deriving Repr, DecidableEq

/-- Comment token kinds of sourcepawn_lexer. -/
inductive CommentKind where
  | LineComment
  | BlockComment
deriving Repr, DecidableEq

/-- Literal token kinds of sourcepawn_lexer. -/
inductive LiteralKind where
  | IntegerLiteral
  | StringLiteral
  | CharLiteral
  | OtherLiteral
deriving Repr, DecidableEq

/-- Operator token kinds of sourcepawn_lexer; only Percent is matched by the
preprocessor, all other operators take the catch-all branch. -/
inductive OperatorKind where
  | Percent
  | OtherOperator
deriving Repr, DecidableEq

/-- Preprocessor directive kinds of sourcepawn_lexer. -/
inductive PreprocDirKind where
  | MIf
  | MElseif
  | MElse
  | MEndif
  | MDefine
  | MInclude
  | MTryinclude
  | MPragma
  | MOtherDir
deriving Repr, DecidableEq

/-- Token kinds of sourcepawn_lexer, with the constructors the preprocessor
matches on; every kind it does not distinguish is OtherKind. -/
inductive TokenKind where
  | Identifier
  | Literal (k : LiteralKind)
  | Operator (k : OperatorKind)
  | LParen
  | RParen
  | Comma
  | Newline
  | LineContinuation
  | Comment (k : CommentKind)
  | PreprocDir (d : PreprocDirKind)
  | Eof
  | OtherKind
deriving Repr, DecidableEq

/-- Parse a list of decimal digit characters as a natural number;
none when empty or when a non-digit occurs. -/
def parse_nat_digits (l : List Char) : Option Nat :=
  if l = [] then none
  else l.foldl (fun acc c =>
    match acc with
    | none => none
    | some n => if c.isDigit then some (n * 10 + (c.toNat - 48)) else none) (some 0)

/-- A lexer token: kind, text, half-open source range and whitespace delta
(the Symbol of sourcepawn_lexer). -/
structure Symbol where
  token_kind : TokenKind
  text : String
  range : SRange
  delta : Delta
deriving Repr, DecidableEq

/-- Mirrors Symbol.to_int of the external lexer: parse the token text as an
unsigned integer, none on failure. -/
def Symbol.to_int (s : Symbol) : Option Nat :=
  parse_nat_digits s.text.data

/-- Modelled from the spec: Symbol.inline_text of the external lexer puts a
multi-line token text on a single line; modelled as the text with newline
characters removed. -/
def Symbol.inline_text (s : Symbol) : String :=
  String.mk (s.text.data.filter (fun c => c ≠ '\n'))

/-- A define binding: optional argument slot array (Vec of i8 in the source,
modelled as a list of Int with explicit cast semantics) and the body symbols. -/
structure Macro where
  args : Option (List Int)
  body : List Symbol
deriving Repr, DecidableEq

/-- The macro table (FxHashMap of String to Macro in the source), modelled as
an association list where the most recent insertion is at the head. -/
abbrev MacroTable := List (String × Macro)

/-- HashMap get. -/
def mt_lookup (t : MacroTable) (k : String) : Option Macro :=
  List.lookup k t

/-- HashMap insert: a later insertion of the same key overwrites. -/
def mt_insert (t : MacroTable) (k : String) (v : Macro) : MacroTable :=
  (k, v) :: t

/-- HashMap extend: every entry of the second table is inserted into the
first, overwriting on collision. -/
def mt_extend (t other : MacroTable) : MacroTable :=
  other.foldl (fun acc kv => (kv.1, kv.2) :: acc) t

/-- Rust Vec push: Vec values are lists in index order, the stack top is the
last element. -/
def vpush {α : Type} (l : List α) (x : α) : List α :=
  l ++ [x]

/-- The Rust cast from i8 to usize sign-extends, so it is reduction modulo
2 to the 64 on the mathematical integer value. -/
def i8_as_usize (v : Int) : Nat :=
  (v % (2 : Int) ^ 64).toNat

/-- Wrapping u32 subtraction of one, the release-mode semantics of the
expression start.line - 1 in get_disabled_diagnostics. -/
def u32_sub_one (n : Nat) : Nat :=
  (n + 2 ^ 32 - 1) % 2 ^ 32

/-- Error payload of an undefined macro reference (errors.rs). -/
structure MacroNotFoundError where
  macro_name : String
  range : SRange
deriving Repr, DecidableEq

/-- Error payload of an invalid conditional expression (errors.rs). -/
structure EvaluationError where
  text : String
  range : SRange
deriving Repr, DecidableEq

/-- Error payload of an invalid substitution index (errors.rs). -/
structure ParseIntError where
  text : String
  range : SRange
deriving Repr, DecidableEq

/-- Every way a preprocessor call can stop abnormally: the expansion errors
of macros.rs, the anyhow context errors of preprocessor.rs, and a Rust panic
(out-of-bounds Vec index or failed unwrap). -/
inductive PreprocError where
  | macroNotFound (e : MacroNotFoundError)
  | parse (e : ParseIntError)
  | structuralElse
  | structuralEndif
  | structuralElseif
  | defineToInt (text : String)
  | defineUnexpectedSymbol (text : String)
  | panicked (msg : String)
deriving Repr, DecidableEq

/-- One lexer token together with the value of the side-band in_preprocessor
flag while this token is the next to be yielded. -/
structure LexEntry where
  inPre : Bool
  sym : Symbol
deriving Repr, DecidableEq

/-- The lexer is an iterator over symbols; the list head is the next token. -/
abbrev Lexer := List LexEntry

/-- The in_preprocessor side-band flag; false once the lexer is exhausted. -/
def in_pre (l : Lexer) : Bool :=
  match l with
  | [] => false
  | e :: _ => e.inPre

/-- Outcome of one iteration of the argument-collection loop of
collect_arguments (macros.rs): break out of the loop, continue with updated
accumulators, or fail (out-of-bounds bucket index). -/
inductive CollectStep where
  | brk (args : List (List Symbol)) (nas : List Symbol)
  | cont (pd : Int) (ai : Nat) (args : List (List Symbol)) (nas : List Symbol)
  | fail (e : PreprocError)
deriving Repr, DecidableEq

/-- The body of the while loop of collect_arguments, acting on one consumed
symbol: paren_depth pd, arg_idx ai, the ten argument buckets args, and the
temporary re-queue new_args_stack nas.  The trailing re-queue push of the
source (made when paren_depth is greater than one after the match) is folded
into each branch. -/
def collect_arguments_step (sub : Symbol) (pd : Int) (ai : Nat)
    (args : List (List Symbol)) (nas : List Symbol) : CollectStep :=
  match sub.token_kind with
  | .LParen =>
      .cont (pd + 1) ai args (if pd + 1 > 1 then vpush nas sub else nas)
  | .RParen =>
      let nas1 := if pd > 1 then vpush nas sub else nas
      if pd - 1 = 0 then .brk args nas1
      else .cont (pd - 1) ai args (if pd - 1 > 1 then vpush nas1 sub else nas1)
  | .Comma =>
      .cont pd (if pd = 1 then ai + 1 else ai) args
        (if pd > 1 then vpush nas sub else nas)
  | _ =>
      if pd = 1 then
        match args.get? ai with
        | some bucket => .cont pd ai (args.set ai (vpush bucket sub)) nas
        | none => .fail (.panicked "index out of bounds")
      else .cont pd ai args (if pd > 1 then vpush nas sub else nas)

/-- The lexer phase of the collect_arguments while loop: once the caller's
args_stack is drained it never refills (the loop only pushes to the local
re-queue), so the remaining iterations consume the lexer alone.  Returns the
buckets, the re-queue and the remaining lexer. -/
def collect_from_lexer (pd : Int) (ai : Nat) (args : List (List Symbol))
    (nas : List Symbol) :
    Lexer → Except PreprocError (List (List Symbol) × List Symbol × Lexer)
  | [] => .ok (args, nas, [])
  | e :: rest =>
      match collect_arguments_step e.sym pd ai args nas with
      | .brk args nas => .ok (args, nas, rest)
      | .fail er => .error er
      | .cont pd ai args nas => collect_from_lexer pd ai args nas rest

/-- The args_stack phase of the collect_arguments while loop, consuming the
caller's args_stack in pop order (last Vec element first); when it drains
without a break the loop goes on consuming the lexer.  Returns the buckets,
the remaining args_stack in Vec order, the re-queue and the remaining
lexer. -/
def collect_from_stack (pd : Int) (ai : Nat) (args : List (List Symbol))
    (nas : List Symbol) (lexer : Lexer) :
    List Symbol →
    Except PreprocError (List (List Symbol) × List Symbol × List Symbol × Lexer)
  | [] =>
      (match collect_from_lexer pd ai args nas lexer with
       | .error er => .error er
       | .ok (args, nas, lexer') => .ok (args, [], nas, lexer'))
  | sub :: restRev =>
      match collect_arguments_step sub pd ai args nas with
      | .brk args nas => .ok (args, restRev.reverse, nas, lexer)
      | .fail er => .error er
      | .cont pd ai args nas => collect_from_stack pd ai args nas lexer restRev

/-- collect_arguments of macros.rs: collect the arguments of a macro call
into ten buckets, consuming the caller's args_stack (popped from its end)
before the lexer; afterwards the re-queue is reversed and appended to the
remaining args_stack (Vec extend), so that popping the merged stack yields
the re-queued symbols in their original order. -/
def collect_arguments (args_stack : List Symbol) (lexer : Lexer) :
    Except PreprocError (List (List Symbol) × List Symbol × Lexer) :=
  match collect_from_stack 0 0 (List.replicate 10 []) [] lexer args_stack.reverse with
  | .error e => .error e
  | .ok (args, args_stack', nas, lexer') =>
      .ok (args, args_stack' ++ nas.reverse, lexer')

/-- One entry of the work stack of expand_symbol: the symbol, the delta
override to install on emission, and the substitution depth. -/
abbrev StackEntry := Symbol × Delta × Int

/-- expand_non_macro_define of macros.rs: push every body symbol of an
object-like define onto the work stack at depth d + 1; the first body symbol
inherits the head symbol's delta. -/
def expand_non_macro_define (m : Macro) (stack : List StackEntry)
    (symbol : Symbol) (d : Int) : List StackEntry :=
  stack ++ m.body.enum.map (fun ic =>
    (ic.2, if ic.1 = 0 then symbol.delta else ic.2.delta, d + 1))

/-- The body walk of expand_macro of macros.rs (named expand_macro_body here):
processes the enumerated body symbols left to right, tracking the count of
consecutive percent operators, and pushes onto the work stack.  A percent is
pushed when the running count is odd; an integer literal met when the count
is exactly one pops the just-pushed percent and pushes the captured bucket
for the slot macro.args index of the literal; any other symbol is pushed
verbatim and resets the count. -/
def expand_macro_go (args : List (List Symbol)) (m : Macro) (symbol : Symbol)
    (d : Int) : List (Nat × Symbol) → Int → List StackEntry →
    Except PreprocError (List StackEntry)
  | [], _, stack => .ok stack
  | ic :: rest, consecutive_percent, stack =>
      match ic.2.token_kind with
      | .Operator .Percent =>
          let cp := consecutive_percent + 1
          let stack :=
            if cp % 2 = 1 then vpush stack (ic.2, ic.2.delta, d + 1) else stack
          expand_macro_go args m symbol d rest cp stack
      | .Literal .IntegerLiteral =>
          if consecutive_percent = 1 then
            let stack := stack.dropLast
            match Symbol.to_int ic.2 with
            | none => .error (.parse ⟨ic.2.text, ic.2.range⟩)
            | some arg_idx =>
                if arg_idx ≥ 10 then .error (.parse ⟨ic.2.text, ic.2.range⟩)
                else
                  match m.args with
                  | none => .error (.panicked "called Option unwrap on a None value")
                  | some margs =>
                      match margs.get? arg_idx with
                      | none => .error (.panicked "index out of bounds")
                      | some aidx =>
                          if aidx ≥ 10 then .error (.parse ⟨ic.2.text, ic.2.range⟩)
                          else
                            match args.get? (i8_as_usize aidx) with
                            | none => .error (.panicked "index out of bounds")
                            | some bucket =>
                                let stack := stack ++ bucket.enum.map (fun jc =>
                                  (jc.2,
                                   if jc.1 = 0 then symbol.delta else jc.2.delta,
                                   d + 1))
                                expand_macro_go args m symbol d rest 0 stack
          else
            expand_macro_go args m symbol d rest 0
              (vpush stack (ic.2, ic.2.delta, d + 1))
      | _ =>
          expand_macro_go args m symbol d rest 0
            (vpush stack (ic.2, if ic.1 = 0 then symbol.delta else ic.2.delta, d + 1))

/-- expand_macro of macros.rs: substitute the captured argument buckets into
the body of a function-like macro, pushing the result onto the work stack. -/
def expand_macro_body (args : List (List Symbol)) (m : Macro)
    (stack : List StackEntry) (symbol : Symbol) (d : Int) :
    Except PreprocError (List StackEntry) :=
  expand_macro_go args m symbol d m.body.enum 0 stack

/-- The mutable state of one expand_symbol call: the shared lexer, the local
work stack and args_stack, the shared expansion stack, and the list of
top-level expanded macro names returned for bookkeeping. -/
structure ExpandState where
  lexer : Lexer
  stack : List StackEntry
  args_stack : List Symbol
  expansion_stack : List Symbol
  expanded_macros : List Symbol
deriving Repr, DecidableEq

/-- Outcome of one iteration of the expand_symbol work loop: the stack is
exhausted (done), the loop continues, or the call fails; a failure carries
the state so the caller keeps the mutations made so far. -/
inductive ExpandStep where
  | done (s : ExpandState)
  | cont (s : ExpandState)
  | fail (s : ExpandState) (e : PreprocError)
deriving Repr, DecidableEq

/-- The body of the while loop of expand_symbol (macros.rs): pop the work
stack; drop the entry if its depth equals five; expand identifiers through
the macro table (failing on an undefined reference unless
allow_undefined_macros); re-emit string and char literals with a single-line
range; discard newlines, line continuations and line comments; re-emit
everything else with the delta override installed. -/
def expand_step (macros : MacroTable) (allow_undefined_macros : Bool)
    (s : ExpandState) : ExpandStep :=
  match s.stack.getLast? with
  | none => .done s
  | some (symbol, delta, d) =>
      let s := { s with stack := s.stack.dropLast }
      if d = 5 then .cont s
      else
        match symbol.token_kind with
        | .Identifier =>
            match mt_lookup macros symbol.text with
            | none =>
                if !allow_undefined_macros then
                  .fail s (.macroNotFound ⟨symbol.text, symbol.range⟩)
                else
                  let es := vpush s.expansion_stack ({ symbol with delta := delta })
                  .cont { s with expansion_stack := es }
            | some m =>
                let s := if d = 0 then
                    { s with expanded_macros := vpush s.expanded_macros symbol }
                  else s
                match m.args with
                | none =>
                    .cont { s with stack := expand_non_macro_define m s.stack symbol d }
                | some _ =>
                    match collect_arguments s.args_stack s.lexer with
                    | .error e => .fail s e
                    | .ok (args, args_stack', lexer') =>
                        let s := { s with args_stack := args_stack', lexer := lexer' }
                        match expand_macro_body args m s.stack symbol d with
                        | .error e => .fail s e
                        | .ok stack' => .cont { s with stack := stack' }
        | .Literal .StringLiteral =>
            let text := symbol.inline_text
            let sym' : Symbol :=
              ⟨symbol.token_kind, text,
               ⟨symbol.range.start,
                ⟨symbol.range.start.line, symbol.range.start.character + text.length⟩⟩,
               symbol.delta⟩
            .cont { s with expansion_stack := vpush s.expansion_stack sym' }
        | .Literal .CharLiteral =>
            let text := symbol.inline_text
            let sym' : Symbol :=
              ⟨symbol.token_kind, text,
               ⟨symbol.range.start,
                ⟨symbol.range.start.line, symbol.range.start.character + text.length⟩⟩,
               symbol.delta⟩
            .cont { s with expansion_stack := vpush s.expansion_stack sym' }
        | .Newline => .cont s
        | .LineContinuation => .cont s
        | .Comment .LineComment => .cont s
        | _ =>
            let es := vpush s.expansion_stack ({ symbol with delta := delta })
            .cont { s with expansion_stack := es }

/-- The while loop of expand_symbol, driven by fuel; none means the fuel ran
out before the loop finished.  A finished run returns the final state and,
on failure, the error. -/
def expand_loop (macros : MacroTable) (allow_undefined_macros : Bool) :
    Nat → ExpandState → Option (ExpandState × Option PreprocError)
  | 0, _ => none
  | fuel + 1, s =>
      match expand_step macros allow_undefined_macros s with
      | .done s' => some (s', none)
      | .fail s' e => some (s', some e)
      | .cont s' => expand_loop macros allow_undefined_macros fuel s'

/-- expand_symbol of macros.rs: seed the work stack with the head symbol at
depth zero and run the loop; returns the final lexer and expansion stack
(mutated through shared references in the source) and either the list of
top-level expanded macros or the error. -/
def expand_symbol (efuel : Nat) (lexer : Lexer) (macros : MacroTable)
    (symbol : Symbol) (expansion_stack : List Symbol)
    (allow_undefined_macros : Bool) :
    Option ((Lexer × List Symbol) × Except PreprocError (List Symbol)) :=
  match expand_loop macros allow_undefined_macros efuel
      ⟨lexer, [(symbol, symbol.delta, 0)], [], expansion_stack, []⟩ with
  | none => none
  | some (es, none) => some ((es.lexer, es.expansion_stack), .ok es.expanded_macros)
  | some (es, some e) => some ((es.lexer, es.expansion_stack), .error e)

/-- The per-if conditional-compilation state (preprocessor.rs). -/
inductive ConditionState where
  | NotActivated
  | Activated
  | Active
deriving Repr, DecidableEq

/-- LSP diagnostic severity values used by the preprocessor. -/
inductive DiagnosticSeverity where
  | ERROR
  | HINT
deriving Repr, DecidableEq

/-- LSP diagnostic tags used by the preprocessor. -/
inductive DiagnosticTag where
  | UNNECESSARY
deriving Repr, DecidableEq

/-- An LSP diagnostic as produced by the preprocessor: range, message,
optional severity and optional tags. -/
structure Diagnostic where
  range : SRange
  message : String
  severity : Option DiagnosticSeverity
  tags : Option (List DiagnosticTag)
deriving Repr, DecidableEq

/-- The mutable state of SourcepawnPreprocessor (preprocessor.rs); the
document URI is omitted because no modelled code path reads it. -/
structure PState where
  lexer : Lexer
  macros : MacroTable
  expansion_stack : List Symbol
  skip_line_start_col : Nat
  skipped_lines : List SRange
  macro_not_found_errors : List MacroNotFoundError
  evaluation_errors : List EvaluationError
  evaluated_define_symbols : List Symbol
  current_line : String
  prev_end : Nat
  conditions_stack : List ConditionState
  out : List String
deriving Repr, DecidableEq

/-- SourcepawnPreprocessor::new: the fresh state for a lexer. -/
def PState.new (lexer : Lexer) : PState :=
  ⟨lexer, [], [], 0, [], [], [], [], "", 0, [], []⟩

/-- The include-resolver collaborator (store.rs seen through the two calls
the preprocessor makes): resolve an include path to a URI, and recursively
preprocess a document returning its macro table. -/
structure Store where
  resolve_import : String → Option String
  preprocess_document_by_uri : String → Option MacroTable

/-- A store that resolves nothing; used for documents without includes. -/
def storeEmpty : Store :=
  ⟨fun _ => none, fun _ => none⟩

/-- A string of n spaces. -/
def spaces (n : Nat) : String :=
  String.mk (List.replicate n ' ')

/-- push_ws of preprocessor.rs: append the absolute column delta of the
symbol as spaces to the current line. -/
def push_ws (s : PState) (symbol : Symbol) : PState :=
  { s with current_line := s.current_line ++ spaces symbol.delta.col.natAbs }

/-- push_current_line of preprocessor.rs. -/
def push_current_line (s : PState) : PState :=
  { s with out := vpush s.out s.current_line }

/-- push_symbol of preprocessor.rs: an Eof finalizes the line; any other
symbol emits its whitespace then its text and advances prev_end. -/
def push_symbol (s : PState) (symbol : Symbol) : PState :=
  if symbol.token_kind = .Eof then push_current_line s
  else
    let s := push_ws s symbol
    { s with prev_end := symbol.range.stop.character,
             current_line := s.current_line ++ symbol.text }

/-- The fold of get_disabled_diagnostics over the skipped ranges: a range
whose start line is exactly one after the end line of the accumulated range
(wrapping u32 arithmetic) merges into it; otherwise the accumulated range is
pushed back and the current range is discarded. -/
def coalesce_ranges (skipped : List SRange) : List SRange :=
  skipped.foldl (fun ranges range =>
    match ranges.getLast? with
    | some old_range =>
        if old_range.stop.line = u32_sub_one range.start.line then
          vpush ranges.dropLast ⟨old_range.start, range.stop⟩
        else ranges
    | none => vpush ranges range) []

/-- get_disabled_diagnostics of preprocessor.rs: extend the diagnostics with
one hint-severity, unnecessary-tagged diagnostic per coalesced range. -/
def get_disabled_diagnostics (s : PState) (diagnostics : List Diagnostic) :
    List Diagnostic :=
  diagnostics ++ (coalesce_ranges s.skipped_lines).map (fun range =>
    ⟨range, "Code disabled by the preprocessor.", some .HINT, some [.UNNECESSARY]⟩)

/-- get_macro_not_found_diagnostics of preprocessor.rs. -/
def get_macro_not_found_diagnostics (s : PState) (diagnostics : List Diagnostic) :
    List Diagnostic :=
  diagnostics ++ s.macro_not_found_errors.map (fun err =>
    ⟨err.range, "Macro " ++ err.macro_name ++ " not found.", some .ERROR, none⟩)

/-- get_evaluation_error_diagnostics of preprocessor.rs. -/
def get_evaluation_error_diagnostics (s : PState) (diagnostics : List Diagnostic) :
    List Diagnostic :=
  diagnostics ++ s.evaluation_errors.map (fun err =>
    ⟨err.range, "Preprocessor condition is invalid: " ++ err.text, some .ERROR, none⟩)

/-- add_diagnostics of preprocessor.rs: disabled regions, then macro-not-found
errors, then evaluation errors. -/
def add_diagnostics (s : PState) (diagnostics : List Diagnostic) :
    List Diagnostic :=
  get_evaluation_error_diagnostics s
    (get_macro_not_found_diagnostics s (get_disabled_diagnostics s diagnostics))

/-- Modelled from the spec: the condition evaluator (evaluator.rs, which is
not among the provided sources).  Per the spec the expression following an
if or elseif evaluates to a boolean; an integer literal is truthy iff
nonzero; an identifier resolves through the macro table, an undefined one is
recorded as a MacroNotFound diagnostic and the expression falls back to
false; a malformed expression is an EvaluationError and the condition
defaults to false.  Only the fragment exercised here is modelled: the first
integer literal or identifier decides the value. -/
def evaluate_if_condition (macros : MacroTable) (line_nb : Nat)
    (symbols : List Symbol) : Except EvaluationError Bool × List MacroNotFoundError :=
  let sig := symbols.find? (fun s =>
    match s.token_kind with
    | .Literal .IntegerLiteral => true
    | .Identifier => true
    | _ => false)
  match sig with
  | none => (.error ⟨"", ⟨⟨line_nb, 0⟩, ⟨line_nb, 0⟩⟩⟩, [])
  | some s =>
      match s.token_kind with
      | .Literal .IntegerLiteral =>
          (match Symbol.to_int s with
           | some n => (.ok (n ≠ 0), [])
           | none => (.error ⟨s.text, s.range⟩, []))
      | _ =>
          match mt_lookup macros s.text with
          | some m =>
              (match m.body.find? (fun b =>
                  b.token_kind = .Literal .IntegerLiteral) with
               | some b =>
                   (match Symbol.to_int b with
                    | some n => (.ok (n ≠ 0), [])
                    | none => (.error ⟨b.text, b.range⟩, []))
               | none => (.error ⟨s.text, s.range⟩, []))
          | none => (.ok false, [⟨s.text, s.range⟩])

/-- The condition-collection loop of process_if_directive: consume symbols
while the in_preprocessor flag is up, returning them with the rest of the
lexer. -/
def collect_if_symbols : Lexer → List Symbol × Lexer
  | [] => ([], [])
  | e :: rest =>
      if e.inPre then
        let (syms, lexer') := collect_if_symbols rest
        (e.sym :: syms, lexer')
      else ([], e :: rest)

/-- process_if_directive of preprocessor.rs: collect the condition symbols,
record the identifiers among them, evaluate (defaulting to false on an
evaluation error), push Active or NotActivated, take over the macro-not-found
errors, and pad the output with one empty line per extra line the directive
spanned. -/
def process_if_directive (s : PState) (symbol : Symbol) : PState :=
  let line_nb := symbol.range.start.line
  let (syms, lexer') := collect_if_symbols s.lexer
  let idents := syms.filter (fun x => x.token_kind = TokenKind.Identifier)
  let s := { s with lexer := lexer',
                    evaluated_define_symbols := s.evaluated_define_symbols ++ idents }
  let (res, mnfe) := evaluate_if_condition s.macros line_nb syms
  let (if_condition_eval, evaluation_errors) :=
    match res with
    | .ok b => (b, s.evaluation_errors)
    | .error err => (false, vpush s.evaluation_errors err)
  let s := { s with evaluation_errors := evaluation_errors }
  let s :=
    if if_condition_eval then
      { s with conditions_stack := vpush s.conditions_stack .Active }
    else
      { s with skip_line_start_col := symbol.range.stop.character,
               conditions_stack := vpush s.conditions_stack .NotActivated }
  let s := { s with macro_not_found_errors := s.macro_not_found_errors ++ mnfe }
  let s :=
    match syms.getLast? with
    | some last_symbol =>
        let line_diff := last_symbol.range.stop.line - line_nb
        { s with out := s.out ++ List.replicate line_diff "" }
    | none => s
  { s with prev_end := 0 }

/-- process_else_directive of preprocessor.rs: pop the condition stack
(failing when empty); a NotActivated branch becomes Active, anything else
pushes Activated and records the skip start column. -/
def process_else_directive (s : PState) (symbol : Symbol) :
    PState × Option PreprocError :=
  match s.conditions_stack.getLast? with
  | none => (s, some .structuralElse)
  | some last =>
      let s := { s with conditions_stack := s.conditions_stack.dropLast }
      match last with
      | .NotActivated =>
          ({ s with conditions_stack := vpush s.conditions_stack .Active }, none)
      | _ =>
          ({ s with skip_line_start_col := symbol.range.stop.character,
                    conditions_stack := vpush s.conditions_stack .Activated }, none)

/-- process_endif_directive of preprocessor.rs: pop the condition stack
(failing when empty); if the new top is not Active, record a skipped range
on the directive's line from skip_line_start_col to its end column. -/
def process_endif_directive (s : PState) (symbol : Symbol) :
    PState × Option PreprocError :=
  match s.conditions_stack.getLast? with
  | none => (s, some .structuralEndif)
  | some _ =>
      let s := { s with conditions_stack := s.conditions_stack.dropLast }
      match s.conditions_stack.getLast? with
      | some last =>
          if last ≠ .Active then
            let r : SRange :=
              ⟨⟨symbol.range.start.line, s.skip_line_start_col⟩,
               ⟨symbol.range.start.line, symbol.range.stop.character⟩⟩
            ({ s with skipped_lines := vpush s.skipped_lines r }, none)
          else (s, none)
      | none => (s, none)

/-- The three states of the define sub-automaton. -/
inductive DefineState where
  | Start
  | Args
  | Body
deriving Repr, DecidableEq

/-- The per-symbol mirroring done by the MDefine loop before its state
machine runs: push the whitespace, set prev_end, and append the symbol text
to the current line unless it is a newline or Eof. -/
def define_mirror (s : PState) (symbol : Symbol) : PState :=
  let keep : String :=
    if symbol.token_kind = TokenKind.Newline ∨ symbol.token_kind = TokenKind.Eof
    then "" else symbol.text
  { s with current_line := s.current_line ++ spaces symbol.delta.col.natAbs ++ keep,
           prev_end := symbol.range.stop.character }

/-- The consumption loop of the MDefine branch of process_directive: while
the in_preprocessor flag is up, mirror each symbol into the current line
(newlines and Eof excepted) and feed the Start, Args, Body automaton.  The
argument slot array starts as the two-element Vec of -1 and 10 that the
source builds; an integer literal in Args state writes args_idx at the index
given by its value, panicking when the index is out of bounds of that
two-element Vec. -/
def process_define_loop (macro_name : String) (body : List Symbol)
    (args : List Int) (found_args : Bool) (dstate : DefineState)
    (args_idx : Int) :
    Lexer → PState →
    Except (PState × PreprocError)
      (PState × String × List Symbol × List Int × Bool)
  | [], s => .ok (s, macro_name, body, args, found_args)
  | e :: rest, s =>
      if e.inPre then
        let symbol := e.sym
        let s := define_mirror ({ s with lexer := rest }) symbol
        match dstate with
        | .Start =>
            if macro_name = "" ∧ symbol.token_kind = .Identifier then
              process_define_loop symbol.text body args found_args .Start
                args_idx rest s
            else if symbol.delta.col = 0 ∧ symbol.token_kind = .LParen then
              process_define_loop macro_name body args found_args .Args
                args_idx rest s
            else
              process_define_loop macro_name (vpush body symbol) args found_args
                .Body args_idx rest s
        | .Args =>
            if symbol.delta.col > 0 then
              process_define_loop macro_name (vpush body symbol) args found_args
                .Body args_idx rest s
            else
              match symbol.token_kind with
              | .RParen =>
                  process_define_loop macro_name body args found_args .Body
                    args_idx rest s
              | .Literal .IntegerLiteral =>
                  (match Symbol.to_int symbol with
                   | none => .error (s, .defineToInt symbol.text)
                   | some n =>
                       if n < args.length then
                         process_define_loop macro_name body
                           (args.set n args_idx) true .Args args_idx rest s
                       else .error (s, .panicked "index out of bounds"))
              | .Comma =>
                  process_define_loop macro_name body args found_args .Args
                    (args_idx + 1) rest s
              | .Operator .Percent =>
                  process_define_loop macro_name body args found_args .Args
                    args_idx rest s
              | _ => .error (s, .defineUnexpectedSymbol symbol.text)
        | .Body =>
            process_define_loop macro_name (vpush body symbol) args found_args
              .Body args_idx rest s
      else .ok (s, macro_name, body, args, found_args)

/-- The MDefine branch of process_directive: mirror the directive symbol,
run the consumption loop, store the macro (args only when an argument slot
was written), finalize the line and insert into the macro table. -/
def process_define (s : PState) (symbol : Symbol) : PState × Option PreprocError :=
  let s := push_symbol s symbol
  match process_define_loop "" [] [-1, 10] false .Start 0 s.lexer s with
  | .error (s, e) => (s, some e)
  | .ok (s, macro_name, body, args, found_args) =>
      let m : Macro := ⟨if found_args then some args else none, body⟩
      let s := push_current_line s
      let s := { s with current_line := "", prev_end := 0 }
      ({ s with macros := mt_insert s.macros macro_name m }, none)

/-- Modelled from the spec: the first capture of the include regexes of
preprocessor.rs, the text between the first opening delimiter and the next
closing delimiter, none when absent or empty. -/
def capture_between (openc closec : Char) (text : String) : Option String :=
  match text.data.dropWhile (fun c => c ≠ openc) with
  | [] => none
  | _ :: rest =>
      let content := rest.takeWhile (fun c => c ≠ closec)
      if content = [] then none
      else if (rest.drop content.length) = [] then none
      else some (String.mk content)

/-- The include-resolution step shared by the two regex branches of the
MInclude arm: resolve the captured path and union the macros of the included
document into the table. -/
def include_merge (store : Store) (s : PState) (path? : Option String) : PState :=
  match path? with
  | none => s
  | some path =>
      match store.resolve_import path with
      | none => s
      | some include_uri =>
          match store.preprocess_document_by_uri include_uri with
          | none => s
          | some include_macros =>
              { s with macros := mt_extend s.macros include_macros }

/-- The MInclude branch of process_directive: trim the inline text, rebuild
the symbol with a single-line range whose end column is the text length,
resolve both the angle-bracket and the quoted form, emit the rebuilt symbol,
and when the directive spanned several lines finalize the line and pad with
empty lines to preserve line parity. -/
def process_include (store : Store) (s : PState) (symbol : Symbol) : PState :=
  let text := symbol.inline_text.trim
  let line_delta := symbol.range.stop.line - symbol.range.start.line
  let symbol' : Symbol :=
    ⟨symbol.token_kind, text,
     ⟨⟨symbol.range.start.line, symbol.range.start.character⟩,
      ⟨symbol.range.start.line, text.length⟩⟩,
     symbol.delta⟩
  let s := include_merge store s (capture_between '<' '>' text)
  let s := include_merge store s (capture_between '\"' '\"' text)
  let s := push_symbol s symbol'
  if line_delta > 0 then
    let s := push_current_line s
    let s := { s with current_line := "", prev_end := 0 }
    { s with out := s.out ++ List.replicate (line_delta - 1) "" }
  else s

/-- process_directive of preprocessor.rs, for the active mode. -/
def process_directive (store : Store) (s : PState) (dir : PreprocDirKind)
    (symbol : Symbol) : PState × Option PreprocError :=
  match dir with
  | .MIf => (process_if_directive s symbol, none)
  | .MElseif =>
      (match s.conditions_stack.getLast? with
       | none => (s, some .structuralElseif)
       | some last =>
           let s := { s with conditions_stack := s.conditions_stack.dropLast }
           match last with
           | .NotActivated => (process_if_directive s symbol, none)
           | _ =>
               ({ s with conditions_stack := vpush s.conditions_stack .Activated },
                none))
  | .MDefine => process_define s symbol
  | .MEndif => process_endif_directive s symbol
  | .MElse => process_else_directive s symbol
  | .MInclude => (process_include store s symbol, none)
  | _ => (push_symbol s symbol, none)

/-- process_negative_condition of preprocessor.rs: while skipping, a nested
if pushes Activated; endif, else and elseif run the shared routines; a
newline finalizes the (empty) line and extends the skipped-range record;
identifiers are recorded; everything else is dropped. -/
def process_negative_condition (s : PState) (symbol : Symbol) :
    PState × Option PreprocError :=
  match symbol.token_kind with
  | .PreprocDir dir =>
      (match dir with
       | .MIf =>
           ({ s with conditions_stack := vpush s.conditions_stack .Activated }, none)
       | .MEndif => process_endif_directive s symbol
       | .MElse => process_else_directive s symbol
       | .MElseif =>
           (match s.conditions_stack.getLast? with
            | none => (s, some .structuralElseif)
            | some last =>
                let s := { s with conditions_stack := s.conditions_stack.dropLast }
                match last with
                | .NotActivated => (process_if_directive s symbol, none)
                | _ =>
                    let cs := vpush s.conditions_stack ConditionState.Activated
                    ({ s with conditions_stack := cs }, none))
       | _ => (s, none))
  | .Newline =>
      let s := push_current_line s
      let r : SRange :=
        ⟨⟨symbol.range.start.line, s.skip_line_start_col⟩,
         ⟨symbol.range.start.line, symbol.range.start.character⟩⟩
      let s := { s with skipped_lines := vpush s.skipped_lines r }
      ({ s with current_line := "", prev_end := 0 }, none)
  | .Identifier =>
      let ev := vpush s.evaluated_define_symbols symbol
      ({ s with evaluated_define_symbols := ev }, none)
  | _ => (s, none)

/-- True when the top of the condition stack is Activated or NotActivated,
the skipping mode of the main loop (an empty stack counts as Active). -/
def negative_mode (s : PState) : Bool :=
  match s.conditions_stack.getLast? with
  | some .Activated => true
  | some .NotActivated => true
  | _ => false

/-- The main loop of preprocess_input (preprocessor.rs), driven by fuel;
none means the fuel ran out.  Each iteration pops the expansion stack if
non-empty, else advances the lexer; a drained input or an Eof in active mode
ends the loop with the joined output; handler failures abort with the state
at failure, whose diagnostic lists the caller can still read. -/
def preprocess_loop (store : Store) (efuel : Nat) :
    Nat → PState → Option (PState × Except PreprocError String)
  | 0, _ => none
  | fuel + 1, s =>
      let next : Option (Symbol × PState) :=
        if s.expansion_stack ≠ [] then
          match s.expansion_stack.getLast? with
          | some symbol =>
              some (symbol, { s with expansion_stack := s.expansion_stack.dropLast })
          | none => none
        else
          match s.lexer with
          | [] => none
          | e :: rest => some (e.sym, { s with lexer := rest })
      match next with
      | none => some (s, .ok (String.intercalate "\n" s.out))
      | some (symbol, s) =>
          if negative_mode s then
            match process_negative_condition s symbol with
            | (s, some e) => some (s, .error e)
            | (s, none) => preprocess_loop store efuel fuel s
          else
            match symbol.token_kind with
            | .PreprocDir dir =>
                (match process_directive store s dir symbol with
                 | (s, some e) => some (s, .error e)
                 | (s, none) => preprocess_loop store efuel fuel s)
            | .Newline =>
                let s := push_ws s symbol
                let s := push_current_line s
                preprocess_loop store efuel fuel
                  { s with current_line := "", prev_end := 0 }
            | .Identifier =>
                (match mt_lookup s.macros symbol.text with
                 | some _ =>
                     (match expand_symbol efuel s.lexer s.macros symbol
                         s.expansion_stack false with
                      | none => none
                      | some ((lexer', expansion_stack'), .ok _) =>
                          preprocess_loop store efuel fuel
                            { s with lexer := lexer',
                                     expansion_stack := expansion_stack' }
                      | some ((lexer', expansion_stack'), .error e) =>
                          let s := { s with lexer := lexer',
                                            expansion_stack := expansion_stack' }
                          match e with
                          | .macroNotFound err =>
                              let mnf := vpush s.macro_not_found_errors err
                              some ({ s with macro_not_found_errors := mnf },
                                .error (.macroNotFound err))
                          | _ => some (s, .error e))
                 | none => preprocess_loop store efuel fuel (push_symbol s symbol))
            | .Eof =>
                let s := push_ws s symbol
                let s := push_current_line s
                some (s, .ok (String.intercalate "\n" s.out))
            | _ => preprocess_loop store efuel fuel (push_symbol s symbol)

/-- preprocess_input of preprocessor.rs, from a fresh state. -/
def preprocess_input (store : Store) (efuel fuel : Nat) (lexer : Lexer) :
    Option (PState × Except PreprocError String) :=
  preprocess_loop store efuel fuel (PState.new lexer)

/-- The number of newline characters in a string. -/
def newline_count_str (s : String) : Nat :=
  (s.data.filter (fun c => c = '\n')).length

/-- The number of newline tokens an input yields. -/
def newline_count_lexer (lexer : Lexer) : Nat :=
  (lexer.filter (fun e => e.sym.token_kind = .Newline)).length

/-- Every entry of an expander work stack has substitution depth at most
five. -/
abbrev DepthOK (stack : List StackEntry) : Prop :=
  ∀ e ∈ stack, e.2.2 ≤ 5

/-- The work-stack entries that a run of n consecutive percent operators
pushes when the count starts at cp: one entry per odd running count. -/
def percent_pushes (p : Symbol) (d : Int) : Nat → Int → List StackEntry
  | 0, _ => []
  | n + 1, cp =>
      (if (cp + 1) % 2 = 1 then [(p, p.delta, d + 1)] else []) ++
        percent_pushes p d n (cp + 1)

/-- Build a symbol from kind, text, corner coordinates and delta. -/
def mkSym (k : TokenKind) (t : String) (l0 c0 l1 c1 : Nat) (dl dc : Int) : Symbol :=
  ⟨k, t, ⟨⟨l0, c0⟩, ⟨l1, c1⟩⟩, ⟨dl, dc⟩⟩

/-! Concrete test documents, given as the token streams their source text
lexes to. -/

/-- Tokens of the two-line document: a define of A as B followed by a use of
A, where B is never defined. -/
def c1Def : Symbol := mkSym (.PreprocDir .MDefine) "#define" 0 0 0 7 0 0
def c1A : Symbol := mkSym .Identifier "A" 0 8 0 9 0 1
def c1B : Symbol := mkSym .Identifier "B" 0 10 0 11 0 1
def c1NL0 : Symbol := mkSym .Newline "\n" 0 11 1 0 0 0
def c1A2 : Symbol := mkSym .Identifier "A" 1 0 1 1 1 0
def c1NL1 : Symbol := mkSym .Newline "\n" 1 1 2 0 0 0
def c1EOF : Symbol := mkSym .Eof "" 2 0 2 0 1 0

def lexC1 : Lexer :=
  [⟨true, c1Def⟩, ⟨true, c1A⟩, ⟨true, c1B⟩, ⟨true, c1NL0⟩,
   ⟨false, c1A2⟩, ⟨false, c1NL1⟩, ⟨false, c1EOF⟩]

/-- Tokens of the one-line document defining the function-like macro F with
formal parameter slot zero and body x. -/
def c2Def : Symbol := mkSym (.PreprocDir .MDefine) "#define" 0 0 0 7 0 0
def c2F : Symbol := mkSym .Identifier "F" 0 8 0 9 0 1
def c2LP : Symbol := mkSym .LParen "(" 0 9 0 10 0 0
def c2Pct : Symbol := mkSym (.Operator .Percent) "%" 0 10 0 11 0 0
def c2Zero : Symbol := mkSym (.Literal .IntegerLiteral) "0" 0 11 0 12 0 0
def c2RP : Symbol := mkSym .RParen ")" 0 12 0 13 0 0
def c2X : Symbol := mkSym .Identifier "x" 0 14 0 15 0 1
def c2NL : Symbol := mkSym .Newline "\n" 0 15 1 0 0 0
def c2EOF : Symbol := mkSym .Eof "" 1 0 1 0 1 0

def lexC2 : Lexer :=
  [⟨true, c2Def⟩, ⟨true, c2F⟩, ⟨true, c2LP⟩, ⟨true, c2Pct⟩, ⟨true, c2Zero⟩,
   ⟨true, c2RP⟩, ⟨true, c2X⟩, ⟨true, c2NL⟩, ⟨false, c2EOF⟩]

/-- Tokens of the document whose first line is an if directive with a false
condition and whose second, final line holds an identifier with no trailing
newline; the conditional is never closed. -/
def c3If : Symbol := mkSym (.PreprocDir .MIf) "#if" 0 0 0 3 0 0
def c3Zero : Symbol := mkSym (.Literal .IntegerLiteral) "0" 0 4 0 5 0 1
def c3NL : Symbol := mkSym .Newline "\n" 0 5 1 0 0 0
def c3X : Symbol := mkSym .Identifier "x" 1 0 1 1 1 0
def c3EOF : Symbol := mkSym .Eof "" 1 1 1 1 0 0

def lexC3 : Lexer :=
  [⟨true, c3If⟩, ⟨true, c3Zero⟩, ⟨true, c3NL⟩, ⟨false, c3X⟩, ⟨false, c3EOF⟩]

/-- Tokens of the nested call text: open paren, g, open paren, x, close,
close, as fed to the argument collector. -/
def c5LP1 : Symbol := mkSym .LParen "(" 0 1 0 2 0 0
def c5G : Symbol := mkSym .Identifier "g" 0 2 0 3 0 0
def c5LP2 : Symbol := mkSym .LParen "(" 0 3 0 4 0 0
def c5X : Symbol := mkSym .Identifier "x" 0 4 0 5 0 0
def c5RP1 : Symbol := mkSym .RParen ")" 0 5 0 6 0 0
def c5RP2 : Symbol := mkSym .RParen ")" 0 6 0 7 0 0

def lexC5 : Lexer :=
  [⟨false, c5LP1⟩, ⟨false, c5G⟩, ⟨false, c5LP2⟩, ⟨false, c5X⟩,
   ⟨false, c5RP1⟩, ⟨false, c5RP2⟩]

/-- The ten buckets the collector returns on the nested call text: only g,
seen at paren depth one, lands in bucket zero. -/
def c5Args : List (List Symbol) :=
  [[c5G], [], [], [], [], [], [], [], [], []]

/-- A percent operator, an integer literal zero, an argument symbol and a
macro head, for the substitution tests. -/
def c6P : Symbol := mkSym (.Operator .Percent) "%" 0 10 0 11 0 0
def c6Zero : Symbol := mkSym (.Literal .IntegerLiteral) "0" 0 11 0 12 0 0
def c6A : Symbol := mkSym .Identifier "a" 5 5 5 6 0 0
def c6Head : Symbol := mkSym .Identifier "M" 3 0 3 1 0 2

/-- A function-like macro whose body is three percent operators followed by
the literal zero. -/
def c6M : Macro := ⟨some [0], [c6P, c6P, c6P, c6Zero]⟩

/-- Tokens of the one-line document holding only an if directive with a true
condition; the conditional is never closed. -/
def c7If : Symbol := mkSym (.PreprocDir .MIf) "#if" 0 0 0 3 0 0
def c7One : Symbol := mkSym (.Literal .IntegerLiteral) "1" 0 4 0 5 0 1
def c7NL : Symbol := mkSym .Newline "\n" 0 5 1 0 0 0
def c7EOF : Symbol := mkSym .Eof "" 1 0 1 0 1 0

def lexC7 : Lexer :=
  [⟨true, c7If⟩, ⟨true, c7One⟩, ⟨true, c7NL⟩, ⟨false, c7EOF⟩]

/-- A state whose skipped ranges lie on lines zero and five: two maximal
runs of contiguous skipped lines. -/
def c9State : PState :=
  { PState.new [] with skipped_lines := [⟨⟨0, 0⟩, ⟨0, 3⟩⟩, ⟨⟨5, 0⟩, ⟨5, 3⟩⟩] }

/-- A function-like macro with the argument slot array the define parser
builds for a formal parameter numbered one: slot zero still holds the
sentinel minus one, and the body substitutes slot zero. -/
def c10M : Macro := ⟨some [-1, 10], [c6P, c6Zero]⟩

/-- An else directive symbol on its own line. -/
def w8Else : Symbol := mkSym (.PreprocDir .MElse) "#else" 0 0 0 5 0 0

/-- An endif directive symbol on its own line. -/
def w7Endif : Symbol := mkSym (.PreprocDir .MEndif) "#endif" 0 0 0 6 0 0

/-- A state about to read the use of A, with A defined as the undefined
identifier B. -/
def w1State : PState :=
  { PState.new [⟨false, c1A2⟩, ⟨false, c1EOF⟩] with
      macros := [("A", ⟨none, [c1B]⟩)] }

/-- A fresh state whose document is a bare endif. -/
def w7State : PState :=
  PState.new [⟨false, w7Endif⟩]

/-- A fresh state whose document is a bare else. -/
def w8State : PState :=
  PState.new [⟨false, w8Else⟩]

/-! ## Helper lemmas -/

/-- A list contains its last element. -/
theorem mem_of_getLast?_eq {α : Type} {l : List α} {a : α}
    (h : l.getLast? = some a) : a ∈ l := by
  have h2 := List.dropLast_append_getLast? a (Option.mem_def.mpr h)
  rw [← h2]
  exact List.mem_append_right _ (List.mem_singleton_self a)

/-- Dropping the top of a depth-bounded work stack keeps it depth-bounded. -/
theorem depthOK_dropLast {stack : List StackEntry} (h : DepthOK stack) :
    DepthOK stack.dropLast := by
  intro e he
  exact h e (List.dropLast_subset stack he)

/-- Every entry of the work stack returned by the body walk of a
function-like expansion either was on the stack already or was pushed at
depth d + 1. -/
theorem expand_macro_go_mem (args : List (List Symbol)) (m : Macro) (sym : Symbol)
    (d : Int) :
    ∀ (body : List (Nat × Symbol)) (cp : Int) (stack stack' : List StackEntry),
      expand_macro_go args m sym d body cp stack = .ok stack' →
      ∀ e ∈ stack', e ∈ stack ∨ e.2.2 = d + 1 := by
  intro body
  induction body with
  | nil =>
      intro cp stack stack' h e he
      simp [expand_macro_go] at h
      subst h
      exact Or.inl he
  | cons ic rest ih =>
      intro cp stack stack' h e he
      cases hk : ic.2.token_kind with
      | Operator k =>
          cases k with
          | Percent =>
              simp only [expand_macro_go, hk] at h
              by_cases hcp : (cp + 1) % 2 = 1
              · rw [if_pos hcp] at h
                rcases ih (cp + 1) _ _ h e he with h1 | h1
                · rcases List.mem_append.mp h1 with h2 | h2
                  · exact Or.inl h2
                  · simp at h2
                    subst h2
                    exact Or.inr rfl
                · exact Or.inr h1
              · rw [if_neg hcp] at h
                exact ih (cp + 1) _ _ h e he
          | OtherOperator =>
              simp only [expand_macro_go, hk] at h
              rcases ih 0 _ _ h e he with h1 | h1
              · rcases List.mem_append.mp h1 with h2 | h2
                · exact Or.inl h2
                · simp at h2
                  subst h2
                  exact Or.inr rfl
              · exact Or.inr h1
      | Literal lk =>
          cases lk with
          | IntegerLiteral =>
              simp only [expand_macro_go, hk] at h
              by_cases hcp : cp = 1
              · rw [if_pos hcp] at h
                cases hti : Symbol.to_int ic.2 with
                | none => simp [hti] at h
                | some arg_idx =>
                    simp only [hti] at h
                    by_cases hge : arg_idx ≥ 10
                    · simp [if_pos hge] at h
                    · rw [if_neg hge] at h
                      cases hma : m.args with
                      | none => simp [hma] at h
                      | some margs =>
                          simp only [hma] at h
                          cases hgi : margs[arg_idx]? with
                          | none => simp [hgi] at h
                          | some aidx =>
                              simp only [List.get?_eq_getElem?, hgi] at h
                              by_cases hai : aidx ≥ 10
                              · simp [if_pos hai] at h
                              · rw [if_neg hai] at h
                                cases hbu : args[i8_as_usize aidx]? with
                                | none => simp [hbu] at h
                                | some bucket =>
                                    simp only [List.get?_eq_getElem?, hbu] at h
                                    rcases ih 0 _ _ h e he with h1 | h1
                                    · rcases List.mem_append.mp h1 with h2 | h2
                                      · exact Or.inl
                                          (List.dropLast_subset stack h2)
                                      · rcases List.mem_map.mp h2 with ⟨jc, _, hj⟩
                                        subst hj
                                        exact Or.inr rfl
                                    · exact Or.inr h1
              · rw [if_neg hcp] at h
                rcases ih 0 _ _ h e he with h1 | h1
                · rcases List.mem_append.mp h1 with h2 | h2
                  · exact Or.inl h2
                  · simp at h2
                    subst h2
                    exact Or.inr rfl
                · exact Or.inr h1
          | StringLiteral =>
              simp only [expand_macro_go, hk] at h
              rcases ih 0 _ _ h e he with h1 | h1
              · rcases List.mem_append.mp h1 with h2 | h2
                · exact Or.inl h2
                · simp at h2
                  subst h2
                  exact Or.inr rfl
              · exact Or.inr h1
          | CharLiteral =>
              simp only [expand_macro_go, hk] at h
              rcases ih 0 _ _ h e he with h1 | h1
              · rcases List.mem_append.mp h1 with h2 | h2
                · exact Or.inl h2
                · simp at h2
                  subst h2
                  exact Or.inr rfl
              · exact Or.inr h1
          | OtherLiteral =>
              simp only [expand_macro_go, hk] at h
              rcases ih 0 _ _ h e he with h1 | h1
              · rcases List.mem_append.mp h1 with h2 | h2
                · exact Or.inl h2
                · simp at h2
                  subst h2
                  exact Or.inr rfl
              · exact Or.inr h1
      | Identifier =>
          simp only [expand_macro_go, hk] at h
          rcases ih 0 _ _ h e he with h1 | h1
          · rcases List.mem_append.mp h1 with h2 | h2
            · exact Or.inl h2
            · simp at h2
              subst h2
              exact Or.inr rfl
          · exact Or.inr h1
      | LParen =>
          simp only [expand_macro_go, hk] at h
          rcases ih 0 _ _ h e he with h1 | h1
          · rcases List.mem_append.mp h1 with h2 | h2
            · exact Or.inl h2
            · simp at h2
              subst h2
              exact Or.inr rfl
          · exact Or.inr h1
      | RParen =>
          simp only [expand_macro_go, hk] at h
          rcases ih 0 _ _ h e he with h1 | h1
          · rcases List.mem_append.mp h1 with h2 | h2
            · exact Or.inl h2
            · simp at h2
              subst h2
              exact Or.inr rfl
          · exact Or.inr h1
      | Comma =>
          simp only [expand_macro_go, hk] at h
          rcases ih 0 _ _ h e he with h1 | h1
          · rcases List.mem_append.mp h1 with h2 | h2
            · exact Or.inl h2
            · simp at h2
              subst h2
              exact Or.inr rfl
          · exact Or.inr h1
      | Newline =>
          simp only [expand_macro_go, hk] at h
          rcases ih 0 _ _ h e he with h1 | h1
          · rcases List.mem_append.mp h1 with h2 | h2
            · exact Or.inl h2
            · simp at h2
              subst h2
              exact Or.inr rfl
          · exact Or.inr h1
      | LineContinuation =>
          simp only [expand_macro_go, hk] at h
          rcases ih 0 _ _ h e he with h1 | h1
          · rcases List.mem_append.mp h1 with h2 | h2
            · exact Or.inl h2
            · simp at h2
              subst h2
              exact Or.inr rfl
          · exact Or.inr h1
      | Comment ck =>
          simp only [expand_macro_go, hk] at h
          rcases ih 0 _ _ h e he with h1 | h1
          · rcases List.mem_append.mp h1 with h2 | h2
            · exact Or.inl h2
            · simp at h2
              subst h2
              exact Or.inr rfl
          · exact Or.inr h1
      | PreprocDir dk =>
          simp only [expand_macro_go, hk] at h
          rcases ih 0 _ _ h e he with h1 | h1
          · rcases List.mem_append.mp h1 with h2 | h2
            · exact Or.inl h2
            · simp at h2
              subst h2
              exact Or.inr rfl
          · exact Or.inr h1
      | Eof =>
          simp only [expand_macro_go, hk] at h
          rcases ih 0 _ _ h e he with h1 | h1
          · rcases List.mem_append.mp h1 with h2 | h2
            · exact Or.inl h2
            · simp at h2
              subst h2
              exact Or.inr rfl
          · exact Or.inr h1
      | OtherKind =>
          simp only [expand_macro_go, hk] at h
          rcases ih 0 _ _ h e he with h1 | h1
          · rcases List.mem_append.mp h1 with h2 | h2
            · exact Or.inl h2
            · simp at h2
              subst h2
              exact Or.inr rfl
          · exact Or.inr h1

/-- Processing a run of percent operators in a macro body advances the
consecutive count by the run length and pushes one percent entry per odd
running count. -/
theorem expand_macro_go_percent_run (args : List (List Symbol)) (m : Macro)
    (sym p : Symbol) (d : Int) (hp : p.token_kind = .Operator .Percent) :
    ∀ (l rest : List (Nat × Symbol)) (cp : Int) (stack : List StackEntry),
      (∀ x ∈ l, x.2 = p) →
      expand_macro_go args m sym d (l ++ rest) cp stack =
        expand_macro_go args m sym d rest (cp + l.length)
          (stack ++ percent_pushes p d l.length cp) := by
  intro l
  induction l with
  | nil =>
      intro rest cp stack _
      simp [percent_pushes]
  | cons x t ih =>
      intro rest cp stack hall
      have hx : x.2 = p := hall x (List.mem_cons_self x t)
      have ht : ∀ y ∈ t, y.2 = p := fun y hy => hall y (List.mem_cons_of_mem x hy)
      simp only [List.cons_append, expand_macro_go, hx, hp, List.append_eq]
      by_cases hc : (cp + 1) % 2 = 1
      · rw [if_pos hc, ih rest (cp + 1) (vpush stack (p, p.delta, d + 1)) ht]
        have h1 : percent_pushes p d (t.length + 1) cp =
            (p, p.delta, d + 1) :: percent_pushes p d t.length (cp + 1) := by
          simp [percent_pushes, hc]
        rw [List.length_cons, h1]
        have h2 : cp + 1 + (t.length : Int) = cp + ((t.length : Int) + 1) := by
          ring
        rw [vpush, List.append_cons stack (p, p.delta, d + 1)
          (percent_pushes p d t.length (cp + 1))]
        congr 1
      · rw [if_neg hc, ih rest (cp + 1) stack ht]
        have h1 : percent_pushes p d (t.length + 1) cp =
            percent_pushes p d t.length (cp + 1) := by
          simp [percent_pushes, hc]
        rw [List.length_cons, h1]
        congr 1
        all_goals
          push_cast
          ring

/-- A percent run of length n starting from an even count pushes the round-up
of half of n entries, from an odd count the round-down. -/
theorem percent_pushes_closed (p : Symbol) (d : Int) :
    ∀ (n : Nat) (cp : Int), 0 ≤ cp →
      percent_pushes p d n cp =
        List.replicate (if cp % 2 = 0 then (n + 1) / 2 else n / 2)
          (p, p.delta, d + 1) := by
  intro n
  induction n with
  | zero =>
      intro cp _
      simp [percent_pushes]
  | succ k ih =>
      intro cp hcp
      by_cases hc : cp % 2 = 0
      · have h1 : (cp + 1) % 2 = 1 := by omega
        have h2 : ¬ ((cp + 1) % 2 = 0) := by omega
        rw [if_pos hc]
        have h3 : (k + 1 + 1) / 2 = k / 2 + 1 := by omega
        rw [h3, List.replicate_succ]
        simp only [percent_pushes, h1, if_pos, reduceIte]
        rw [ih (cp + 1) (by omega), if_neg h2]
        simp
      · have h1 : ¬ ((cp + 1) % 2 = 1) := by omega
        have h2 : (cp + 1) % 2 = 0 := by omega
        rw [if_neg hc]
        simp only [percent_pushes, h1, reduceIte]
        rw [ih (cp + 1) (by omega), if_pos h2]
        simp

/-! ## The claims -/

/-- C1, counterexample: on the document that defines A as the undefined
identifier B and then uses A, preprocess_input records the MacroNotFound
diagnostic for B but returns an error instead of continuing and returning
the preprocessed text, contradicting the claim as stated. -/
theorem claim_C1_counterexample :
    (preprocess_input storeEmpty 100 100 lexC1).map
        (fun r => (r.2, r.1.macro_not_found_errors)) =
      some (.error (.macroNotFound ⟨"B", ⟨⟨0, 10⟩, ⟨0, 11⟩⟩⟩),
            [⟨"B", ⟨⟨0, 10⟩, ⟨0, 11⟩⟩⟩]) := by
  decide

/-- C1, amended: when the next symbol is a defined macro whose body refers to
an undefined macro, preprocess_input pushes the MacroNotFound diagnostic and
aborts with the corresponding error, leaving the other state intact; a
top-level identifier that is not in the macro table is instead re-emitted
with no diagnostic and preprocessing continues. -/
theorem claim_C1_amended (store : Store) (efuel fuel : Nat) (s : PState)
    (f : Bool) (sym b : Symbol) (rest : Lexer)
    (hexp : s.expansion_stack = [])
    (hlex : s.lexer = ⟨f, sym⟩ :: rest)
    (hcond : s.conditions_stack = [])
    (hkind : sym.token_kind = .Identifier)
    (hmac : mt_lookup s.macros sym.text = some ⟨none, [b]⟩)
    (hbk : b.token_kind = .Identifier)
    (hbm : mt_lookup s.macros b.text = none) :
    preprocess_loop store (efuel + 2) (fuel + 1) s =
      some ({ s with lexer := rest,
                     expansion_stack := [],
                     macro_not_found_errors := vpush s.macro_not_found_errors ⟨b.text, b.range⟩ },
            .error (.macroNotFound ⟨b.text, b.range⟩)) ∧
    ∀ sym2 : Symbol, sym2.token_kind = .Identifier →
      mt_lookup s.macros sym2.text = none →
      preprocess_loop store (efuel + 2) (fuel + 1)
          ({ s with lexer := ⟨f, sym2⟩ :: rest }) =
        preprocess_loop store (efuel + 2) fuel
          (push_symbol ({ s with lexer := rest }) sym2) := by
  constructor
  · simp [preprocess_loop, hexp, hlex, negative_mode, hcond, hkind, hmac,
      expand_symbol, expand_loop, expand_step, expand_non_macro_define,
      List.enum_singleton, hbk, hbm, vpush]
  · intro sym2 hk2 hm2
    simp [preprocess_loop, hexp, negative_mode, hcond, hk2, hm2]

/-- C1, witness: the amended claim applied to the concrete two-line
document. -/
theorem claim_C1_witness :
    preprocess_loop storeEmpty (0 + 2) (0 + 1) w1State =
      some ({ w1State with lexer := [⟨false, c1EOF⟩],
                           expansion_stack := [],
                           macro_not_found_errors := vpush w1State.macro_not_found_errors ⟨c1B.text, c1B.range⟩ },
            .error (.macroNotFound ⟨c1B.text, c1B.range⟩)) :=
  (claim_C1_amended storeEmpty 0 0 w1State false c1A2 c1B [⟨false, c1EOF⟩]
    rfl rfl rfl rfl (by decide) rfl (by decide)).1

/-- C2: on the document defining F with formal parameter slot zero, the
stored argument slot array is the two-element list holding 0 and 10 rather
than a ten-element sentinel-filled array; the claimed ten-slot layout
differs from what is stored. -/
theorem claim_C2_define_args_two_slots :
    (preprocess_input storeEmpty 100 100 lexC2).map
        (fun r => mt_lookup r.1.macros "F") =
      some (some ⟨some [0, 10], [c2X, c2NL]⟩) ∧
    ((⟨some [0, 10], [c2X, c2NL]⟩ : Macro).args.getD []).length = 2 ∧
    (some [(0 : Int), 10] : Option (List Int)) ≠
      some ((List.replicate 10 (-1 : Int)).set 0 0) := by
  decide

/-- C3: the document whose false conditional is never closed and whose last
line lacks a trailing newline preprocesses successfully to the empty string,
zero newlines, while the input holds one newline token: line parity is
violated on a successful run. -/
theorem claim_C3_line_parity_failure :
    (preprocess_input storeEmpty 100 100 lexC3).map (fun r => r.2) =
      some (.ok "") ∧
    newline_count_str "" = 0 ∧ newline_count_lexer lexC3 = 1 := by
  decide

/-- C4: the expander drops any work-stack entry whose depth equals five, the
seed entry has depth zero, and one loop step preserves the bound that every
work-stack entry has depth at most five, so no emitted symbol results from
more than five nested substitutions. -/
theorem claim_C4_depth_cap (macros : MacroTable) (allow : Bool)
    (s : ExpandState) (sym : Symbol) (dl : Delta) :
    expand_step macros allow { s with stack := vpush s.stack (sym, dl, 5) } =
      .cont s ∧
    DepthOK [(sym, dl, 0)] ∧
    (∀ s', expand_step macros allow s = .cont s' →
      DepthOK s.stack → DepthOK s'.stack) := by
  refine ⟨?_, ?_, ?_⟩
  · unfold expand_step
    rw [vpush, List.getLast?_concat]
    simp [List.dropLast_concat]
  · intro e he
    simp at he
    subst he
    simp [DepthOK]
  · intro s' hstep hok
    unfold expand_step at hstep
    cases hg : s.stack.getLast? with
    | none =>
        rw [hg] at hstep
        simp at hstep
    | some entry =>
        obtain ⟨symbol, delta, dd⟩ := entry
        simp only [hg] at hstep
        have hdd : dd ≤ 5 := hok _ (mem_of_getLast?_eq hg)
        have hdOK : DepthOK s.stack.dropLast := depthOK_dropLast hok
        by_cases h5 : dd = 5
        · rw [if_pos h5] at hstep
          simp only [ExpandStep.cont.injEq] at hstep
          subst hstep
          exact hdOK
        · rw [if_neg h5] at hstep
          have hdd4 : dd ≤ 4 := by
            rcases lt_or_eq_of_le hdd with h | h
            · omega
            · exact absurd h h5
          cases hk : symbol.token_kind with
          | Identifier =>
              simp only [hk] at hstep
              cases hm : mt_lookup macros symbol.text with
              | none =>
                  simp only [hm] at hstep
                  cases allow with
                  | false => simp at hstep
                  | true =>
                      simp at hstep
                      subst hstep
                      exact hdOK
              | some m =>
                  simp only [hm, apply_ite ExpandState.stack,
                    apply_ite ExpandState.args_stack, apply_ite ExpandState.lexer,
                    apply_ite ExpandState.expansion_stack, ite_self] at hstep
                  cases hargs : m.args with
                  | none =>
                      simp only [hargs, ExpandStep.cont.injEq] at hstep
                      subst hstep
                      intro e he
                      simp only [expand_non_macro_define] at he
                      rcases List.mem_append.mp he with h2 | h2
                      · exact hdOK e h2
                      · rcases List.mem_map.mp h2 with ⟨jc, _, hj⟩
                        subst hj
                        simpa using (by omega : dd + 1 ≤ 5)
                  | some margs =>
                      simp only [hargs] at hstep
                      cases hcol : collect_arguments s.args_stack s.lexer with
                      | error er => simp [hcol] at hstep
                      | ok triple =>
                          obtain ⟨cargs, as', lx'⟩ := triple
                          simp only [hcol, ExpandStep.cont.injEq] at hstep
                          cases hexp2 : expand_macro_body cargs m
                              s.stack.dropLast symbol dd with
                          | error er => simp [hexp2] at hstep
                          | ok stack2 =>
                              simp only [hexp2, ExpandStep.cont.injEq] at hstep
                              subst hstep
                              intro e he
                              rcases expand_macro_go_mem cargs m symbol dd
                                  m.body.enum 0 s.stack.dropLast stack2 hexp2
                                  e he with h2 | h2
                              · exact hdOK e h2
                              · simp only [h2]
                                omega
          | Literal lk =>
              cases lk <;> simp only [hk] at hstep <;>
                simp only [ExpandStep.cont.injEq] at hstep <;> subst hstep <;>
                exact hdOK
          | Operator k =>
              simp only [hk] at hstep
              simp only [ExpandStep.cont.injEq] at hstep
              subst hstep
              exact hdOK
          | LParen =>
              simp only [hk, ExpandStep.cont.injEq] at hstep
              subst hstep
              exact hdOK
          | RParen =>
              simp only [hk, ExpandStep.cont.injEq] at hstep
              subst hstep
              exact hdOK
          | Comma =>
              simp only [hk, ExpandStep.cont.injEq] at hstep
              subst hstep
              exact hdOK
          | Newline =>
              simp only [hk, ExpandStep.cont.injEq] at hstep
              subst hstep
              exact hdOK
          | LineContinuation =>
              simp only [hk, ExpandStep.cont.injEq] at hstep
              subst hstep
              exact hdOK
          | Comment ck =>
              cases ck <;> simp only [hk, ExpandStep.cont.injEq] at hstep <;>
                subst hstep <;> exact hdOK
          | PreprocDir dk =>
              simp only [hk, ExpandStep.cont.injEq] at hstep
              subst hstep
              exact hdOK
          | Eof =>
              simp only [hk, ExpandStep.cont.injEq] at hstep
              subst hstep
              exact hdOK
          | OtherKind =>
              simp only [hk, ExpandStep.cont.injEq] at hstep
              subst hstep
              exact hdOK

/-- C4, witness: one step of the expander on a depth-zero identifier entry
yields a state whose work stack is still depth-bounded. -/
theorem claim_C4_witness :
    DepthOK (⟨[], [], [], [c6A], []⟩ : ExpandState).stack :=
  (claim_C4_depth_cap [] true ⟨[], [(c6A, c6A.delta, 0)], [], [], []⟩ c6Head
      c6Head.delta).2.2 ⟨[], [], [], [c6A], []⟩ (by decide) (by decide)

/-- C5, counterexample: collecting the arguments of the nested call text
puts only g, seen at paren depth one, into a bucket; the symbol x seen at
paren depth two lands in no bucket, contradicting the claim that it is
appended to both the bucket and the re-queue. -/
theorem claim_C5_counterexample :
    collect_arguments [] lexC5 = .ok (c5Args, [c5RP1, c5X, c5LP2], []) ∧
    ∀ bucket ∈ c5Args, c5X ∉ bucket := by
  decide

/-- C5, amended: a non-parenthesis, non-comma symbol met at paren depth
greater than one is appended only to the temporary re-queue and the argument
buckets are unchanged; on exit the re-queue is reversed and merged back into
the caller's args_stack. -/
theorem claim_C5_amended (sub : Symbol) (pd : Int) (ai : Nat)
    (args : List (List Symbol)) (nas : List Symbol)
    (h1 : sub.token_kind ≠ .LParen) (h2 : sub.token_kind ≠ .RParen)
    (h3 : sub.token_kind ≠ .Comma) (hpd : 1 < pd) :
    collect_arguments_step sub pd ai args nas = .cont pd ai args (vpush nas sub) ∧
    ∀ (as : List Symbol) (lex : Lexer) args' rem nas' lex',
      collect_from_stack 0 0 (List.replicate 10 []) [] lex as.reverse =
        .ok (args', rem, nas', lex') →
      collect_arguments as lex = .ok (args', rem ++ nas'.reverse, lex') := by
  have hne : pd ≠ 1 := by omega
  constructor
  · cases hk : sub.token_kind <;>
      simp_all [collect_arguments_step, hne, hpd]
  · intro as lex args' rem nas' lex' h
    unfold collect_arguments
    rw [h]

/-- C5, witness: the amended claim applied to the symbol x at paren depth
two with the concrete buckets. -/
theorem claim_C5_witness :
    collect_arguments_step c5X 2 0 c5Args [] = .cont 2 0 c5Args (vpush [] c5X) :=
  (claim_C5_amended c5X 2 0 c5Args [] (by decide) (by decide) (by decide)
    (by decide)).1

/-- C6, counterexample: substituting into the body percent percent percent
zero with a one-element bucket re-emits the literal zero verbatim (after the
odd-count percents) instead of substituting the bucket, contradicting the
claim that any odd count of percents triggers substitution. -/
theorem claim_C6_counterexample :
    expand_macro_body [[c6A]] c6M [] c6Head 0 =
      .ok [(c6P, c6P.delta, 1), (c6P, c6P.delta, 1), (c6Zero, c6Zero.delta, 1)] ∧
    ∀ e ∈ [(c6P, c6P.delta, (1 : Int)), (c6P, c6P.delta, 1),
           (c6Zero, c6Zero.delta, 1)],
      e.1 ≠ c6A := by
  decide

/-- C6, amended: for a body of k consecutive percents followed by an integer
literal, substitution of the captured bucket happens exactly when k equals
one; for any other k, including odd counts above one, the kept percents and
the literal are pushed verbatim. -/
theorem claim_C6_amended (args : List (List Symbol)) (m : Macro)
    (stack : List StackEntry) (sym p lit : Symbol) (d : Int) (k n : Nat)
    (margs : List Int) (j : Int) (bucket : List Symbol)
    (hp : p.token_kind = .Operator .Percent)
    (hl : lit.token_kind = .Literal .IntegerLiteral)
    (hbody : m.body = List.replicate k p ++ [lit])
    (hto : lit.to_int = some n)
    (hn : ¬ n ≥ 10)
    (hm : m.args = some margs)
    (hj : margs[n]? = some j)
    (hj10 : ¬ j ≥ 10)
    (hb : args[i8_as_usize j]? = some bucket) :
    (k = 1 → expand_macro_body args m stack sym d =
      .ok (stack ++ bucket.enum.map
        (fun jc => (jc.2, if jc.1 = 0 then sym.delta else jc.2.delta, d + 1)))) ∧
    (k ≠ 1 → expand_macro_body args m stack sym d =
      .ok (stack ++ List.replicate ((k + 1) / 2) (p, p.delta, d + 1) ++
        [(lit, lit.delta, d + 1)])) := by
  constructor
  · intro hk1
    subst hk1
    unfold expand_macro_body
    rw [hbody]
    have henum1 : (List.replicate 1 p ++ [lit]).enum = [(0, p), (1, lit)] := by
      simp [List.enum_cons, List.enumFrom]
    rw [henum1]
    simp [expand_macro_go, hp, hl, hto, hn, hm, hj, hj10, hb, vpush,
      List.dropLast_concat, List.get?_eq_getElem?]
  · intro hk1
    unfold expand_macro_body
    have henum : m.body.enum =
        (List.replicate k p).enum ++ List.enumFrom k [lit] := by
      rw [hbody, List.enum_append, List.length_replicate]
    have hall : ∀ x ∈ (List.replicate k p).enum, x.2 = p := by
      intro x hx
      have h2 := List.mem_enum hx
      rw [h2.2]
      exact List.getElem_replicate p h2.1
    rw [henum, expand_macro_go_percent_run args m sym p d hp _ _ 0 stack hall,
      List.enum_length, List.length_replicate,
      percent_pushes_closed p d k 0 (le_refl 0)]
    have he1 : List.enumFrom k [lit] = [(k, lit)] := by
      simp [List.enumFrom]
    rw [he1]
    have hck : ¬ ((0 : Int) + (k : Int) = 1) := by
      intro hcc
      apply hk1
      omega
    simp only [expand_macro_go, hl, hck, reduceIte]
    simp [vpush, expand_macro_go, List.append_assoc]

/-- C6, witness: the amended claim applied to the three-percent body; the
literal is pushed verbatim. -/
theorem claim_C6_witness :
    expand_macro_body [[c6A]] c6M [] c6Head 0 =
      .ok ([] ++ List.replicate ((3 + 1) / 2) (c6P, c6P.delta, 0 + 1) ++
        [(c6Zero, c6Zero.delta, 0 + 1)]) :=
  (claim_C6_amended [[c6A]] c6M [] c6Head c6P c6Zero 0 3 0 [0] 0 [c6A]
      (by decide) (by decide) (by decide) (by decide) (by decide) (by decide)
      (by decide) (by decide) (by decide)).2 (by decide)

/-- C7, counterexample: the document holding a lone if directive with a true
condition preprocesses successfully, yet the condition stack is non-empty
afterwards and no diagnostic of any kind was recorded, contradicting both
parts of the claim. -/
theorem claim_C7_counterexample :
    (preprocess_input storeEmpty 100 100 lexC7).map
        (fun r => (r.2, r.1.conditions_stack, r.1.evaluation_errors,
                   r.1.macro_not_found_errors)) =
      some (.ok "\n", [.Active], [], []) ∧
    ([ConditionState.Active] : List ConditionState) ≠ [] := by
  decide

/-- C7, amended: a successful run may leave one condition-stack entry per
unterminated conditional; an endif reached with an empty stack aborts the
call with a Structural error, and no diagnostic is recorded for it: the
diagnostics of the failed state equal those before the step. -/
theorem claim_C7_amended (store : Store) (efuel fuel : Nat) (s : PState)
    (f : Bool) (sym : Symbol) (rest : Lexer)
    (hexp : s.expansion_stack = [])
    (hlex : s.lexer = ⟨f, sym⟩ :: rest)
    (hcond : s.conditions_stack = [])
    (hkind : sym.token_kind = .PreprocDir .MEndif) :
    preprocess_loop store efuel (fuel + 1) s =
      some ({ s with lexer := rest }, .error .structuralEndif) ∧
    add_diagnostics ({ s with lexer := rest }) [] = add_diagnostics s [] := by
  constructor
  · simp [preprocess_loop, hexp, hlex, negative_mode, hcond, hkind,
      process_directive, process_endif_directive]
  · rfl

/-- C7, witness: the amended claim applied to the bare endif document. -/
theorem claim_C7_witness :
    preprocess_loop storeEmpty 5 (0 + 1) w7State =
      some ({ w7State with lexer := [] }, .error .structuralEndif) :=
  (claim_C7_amended storeEmpty 5 0 w7State false w7Endif [] rfl rfl rfl rfl).1

/-- C8: an else or endif directive reached with an empty condition stack
makes preprocess_input abort with the corresponding Structural error; the
caller receives no output text, and the diagnostic lists accumulated so far
are unchanged in the returned state. -/
theorem claim_C8_structural_abort (store : Store) (efuel fuel : Nat)
    (s : PState) (f : Bool) (sym : Symbol) (rest : Lexer) (d : PreprocDirKind)
    (hexp : s.expansion_stack = [])
    (hlex : s.lexer = ⟨f, sym⟩ :: rest)
    (hcond : s.conditions_stack = [])
    (hd : d = .MElse ∨ d = .MEndif)
    (hkind : sym.token_kind = .PreprocDir d) :
    preprocess_loop store efuel (fuel + 1) s =
      some ({ s with lexer := rest },
        .error (if d = .MElse then .structuralElse else .structuralEndif)) ∧
    ({ s with lexer := rest }).macro_not_found_errors = s.macro_not_found_errors ∧
    ({ s with lexer := rest }).evaluation_errors = s.evaluation_errors ∧
    ({ s with lexer := rest }).skipped_lines = s.skipped_lines := by
  refine ⟨?_, rfl, rfl, rfl⟩
  rcases hd with h | h <;> subst h <;>
    simp [preprocess_loop, hexp, hlex, negative_mode, hcond, hkind,
      process_directive, process_else_directive, process_endif_directive]

/-- C8, witness: the claim applied to the bare else document. -/
theorem claim_C8_witness :
    preprocess_loop storeEmpty 5 (0 + 1) w8State =
      some ({ w8State with lexer := [] }, .error .structuralElse) :=
  (claim_C8_structural_abort storeEmpty 5 0 w8State false w8Else []
    .MElse rfl rfl rfl (Or.inl rfl) rfl).1

/-- C9: on two skipped ranges at lines zero and five, two maximal contiguous
runs, the disabled-region fold emits a single diagnostic for the first run
and drops the second range entirely, instead of one diagnostic per maximal
run as claimed. -/
theorem claim_C9_noncontiguous_range_dropped :
    get_disabled_diagnostics c9State [] =
      [⟨⟨⟨0, 0⟩, ⟨0, 3⟩⟩, "Code disabled by the preprocessor.",
        some .HINT, some [.UNNECESSARY]⟩] ∧
    (get_disabled_diagnostics c9State []).length ≠ c9State.skipped_lines.length := by
  decide

/-- C10: for a function-like macro whose slot n still holds the sentinel
minus one, expanding a body that substitutes slot n does not produce a
ParseInt error: the sentinel passes the signed comparison against ten, its
cast to usize is astronomically large, and indexing the ten argument buckets
panics. -/
theorem claim_C10_sentinel_panics (args : List (List Symbol)) (m : Macro)
    (stack : List StackEntry) (sym p lit : Symbol) (d : Int) (n : Nat)
    (margs : List Int)
    (hp : p.token_kind = .Operator .Percent)
    (hl : lit.token_kind = .Literal .IntegerLiteral)
    (hbody : m.body = [p, lit])
    (hm : m.args = some margs)
    (hto : lit.to_int = some n)
    (hn : n < 10)
    (hsent : margs.get? n = some (-1))
    (hlen : args.length = 10) :
    expand_macro_body args m stack sym d =
      .error (.panicked "index out of bounds") ∧
    ∀ pe : ParseIntError,
      expand_macro_body args m stack sym d ≠ .error (.parse pe) := by
  have hu : args.get? (i8_as_usize (-1)) = none := by
    apply List.get?_eq_none.mpr
    rw [hlen]
    have : i8_as_usize (-1) = 18446744073709551615 := by decide
    omega
  have hn' : ¬ (10 ≤ n) := by omega
  have hsent' : margs[n]? = some (-1) := by
    simpa [List.get?_eq_getElem?] using hsent
  have hu' : args[i8_as_usize (-1)]? = none := by
    simpa [List.get?_eq_getElem?] using hu
  have hmain : expand_macro_body args m stack sym d =
      .error (.panicked "index out of bounds") := by
    simp [expand_macro_body, hbody, expand_macro_go, hp, hl, hto, hm, hsent',
      hn', hu']
  refine ⟨hmain, ?_⟩
  intro pe
  rw [hmain]
  simp

/-- C10, witness: the claim applied to the macro the define parser builds for
a formal parameter numbered one, whose slot zero holds the sentinel. -/
theorem claim_C10_witness :
    expand_macro_body (List.replicate 10 []) c10M [] c6Head 0 =
      .error (.panicked "index out of bounds") :=
  (claim_C10_sentinel_panics (List.replicate 10 []) c10M [] c6Head c6P c6Zero
      0 0 [-1, 10] (by decide) (by decide) rfl rfl (by decide) (by decide)
      (by decide) (by decide)).1

end SPPre
